import Mathlib

/-!
Shallow embedding of the junction-counting program in `src/main.cpp`.

Conventions used throughout:
* C++ `int` is modelled as `Int`; the constants `INT_MAX`/`INT_MIN` are the
  32-bit values used by the source.  No arithmetic in the program can
  overflow on the inputs the theorems quantify over, so plain `Int`
  arithmetic is exact.
* `std::vector` indexing that the source performs without a bounds check is
  modelled fallibly (`Option`) where the surrounding code can actually reach
  an out-of-bounds index, and totally (`getD`) where the calling context
  guarantees the index is in range (each such spot is noted).
* The `used` 2-d boolean array of the flood fill is modelled as the
  `Finset` of marked pixels; all reads and writes of the array happen at
  in-bounds coordinates, so the array is exactly the set of its `true` cells.
* The flood-fill loop is modelled with an explicit fuel parameter; the
  termination theorem below shows that `rows * columns` fuel always drains
  the queue for an in-bounds seed (the C++ loop has no other exit, see the
  counter theorems), so `BFS` below agrees with the unbounded C++ loop.
-/

/-- `struct Pixel` of the source: a pair of C++ `int` coordinates.
`x` is the row index, `y` the column index. -/
structure Pixel where
  x : Int
  y : Int
deriving DecidableEq

/-- `Pixel()` value-initializes both fields to 0. -/
def Pixel.default : Pixel := ⟨0, 0⟩

def INT_MAX : Int := 2147483647

def INT_MIN : Int := -2147483648

/-- `class Image`: the boolean grid `is_white_`, one entry per source pixel. -/
structure Image where
  is_white : List (List Bool)

/-- `Image::IsWhite(uchar color)`: a sample is "white" (traversable class)
exactly when its intensity equals 0. -/
def isWhiteColor (c : Nat) : Bool := c == 0

/-- The `Image` constructor: classify every 8-bit intensity sample once. -/
def Image.ofGrid (g : List (List Nat)) : Image :=
  ⟨g.map (fun row => row.map isWhiteColor)⟩

/-- `Image::GetRows`: `is_white_.size()`. -/
def Image.GetRows (img : Image) : Nat := img.is_white.length

/-- `Image::GetColumns` as written: `is_white_[0].size()`.  Indexing row 0 of
an empty vector is undefined behaviour, so the access is modelled fallibly. -/
def Image.GetColumnsChecked (img : Image) : Option Nat :=
  (img.is_white.get? 0).map List.length

/-- Total shadow of `Image::GetColumns`, used only in contexts where the
caller has already established `GetRows ≠ 0` (flood fill and neighbour
queries, which only run on images being scanned row by row).  The bridge
lemma `getColumnsChecked_eq` relates it to the fallible version. -/
def Image.GetColumns (img : Image) : Nat := (img.is_white.getD 0 []).length

/-- `Image::IsCorrect(int x, int y)`: the bounds check. -/
def Image.IsCorrect (img : Image) (x y : Int) : Bool :=
  decide (0 ≤ x) && decide (x < (img.GetRows : Int)) &&
  decide (0 ≤ y) && decide (y < (img.GetColumns : Int))

/-- `Image::IsWhite(int x, int y)`: `is_white_[x][y]`.  Used by the flood
fill only on pixels that passed `IsCorrect`, hence total here. -/
def Image.IsWhite (img : Image) (x y : Int) : Bool :=
  (img.is_white.getD x.toNat []).getD y.toNat false

/-- `Image::IsWhite(Pixel)`. -/
def Image.IsWhiteP (img : Image) (p : Pixel) : Bool := img.IsWhite p.x p.y

/-- `Image::IsWhite(int, int)` as invoked by the candidate scanner in
`main`, where nothing guarantees the row index is in range: the raw
`is_white_[i][j]` access, fallible. -/
def Image.IsWhiteChecked (img : Image) (i j : Nat) : Option Bool :=
  (img.is_white.get? i).bind (fun row => row.get? j)

/-- `Image::GetNeighbours(int x, int y)`: the in-bounds subset of the four
axis-aligned neighbours, in the fixed source order. -/
def Image.GetNeighbours (img : Image) (x y : Int) : List Pixel :=
  (if img.IsCorrect (x + 1) y then [⟨x + 1, y⟩] else []) ++
  (if img.IsCorrect x (y + 1) then [⟨x, y + 1⟩] else []) ++
  (if img.IsCorrect (x - 1) y then [⟨x - 1, y⟩] else []) ++
  (if img.IsCorrect x (y - 1) then [⟨x, y - 1⟩] else [])

/-- `Image::GetNeighbours(Pixel)`. -/
def Image.GetNeighboursP (img : Image) (p : Pixel) : List Pixel :=
  img.GetNeighbours p.x p.y

/-- The local state of `BFS`: the FIFO queue, the visited array (as the set
of marked pixels), the output vector `black_pixels`, and the two counters
`white`/`black`.  `trace` additionally records the pixels in pop order; it
is pure instrumentation (no branch of the loop reads it). -/
structure BfsState where
  queue : List Pixel
  used : Finset Pixel
  black_pixels : List Pixel
  trace : List Pixel
  white : Nat
  black : Nat

def MIN_ITERATION_COUNT : Nat := 200

def MAX_ITERATION_COUNT : Nat := 400

/-- State after the code before the loop: queue seeded with `start`,
`used[start] = true`, `white = 0`, `black = 1`. -/
def bfsInit (start : Pixel) : BfsState :=
  { queue := [start], used := {start}, black_pixels := [], trace := []
  , white := 0, black := 1 }

/-- The `while` condition of `BFS`:
`!queue.empty() && (white / black == 0 || white + black < 200) && black + white < 400`. -/
def bfsCond (s : BfsState) : Bool :=
  !s.queue.isEmpty &&
    (s.white / s.black == 0 || decide (s.white + s.black < MIN_ITERATION_COUNT)) &&
    decide (s.black + s.white < MAX_ITERATION_COUNT)

/-- Body of the neighbour loop: `if (!used[p.x][p.y]) { queue.push(p); used[p.x][p.y] = true; }`. -/
def enqueueNew (t : BfsState) (p : Pixel) : BfsState :=
  if p ∈ t.used then t
  else { t with queue := t.queue ++ [p], used := insert p t.used }

/-- One iteration of the `BFS` loop body: pop the front pixel, append it to
`black_pixels` when it is a stroke pixel, then enqueue its unvisited
neighbours. -/
def bfsStep (img : Image) (s : BfsState) : BfsState :=
  match s.queue with
  | [] => s
  | next :: rest =>
      let s1 : BfsState :=
        { s with queue := rest
               , trace := s.trace ++ [next]
               , black_pixels :=
                   if !img.IsWhiteP next then s.black_pixels ++ [next]
                   else s.black_pixels }
      (img.GetNeighboursP next).foldl enqueueNew s1

/-- Run the loop for at most `fuel` iterations (stopping as soon as the
loop condition fails, as the source loop does). -/
def bfsRun (img : Image) : Nat → BfsState → BfsState
  | 0, s => s
  | fuel + 1, s => if bfsCond s then bfsRun img fuel (bfsStep img s) else s

/-- `BFS(start, image, black_pixels)`: the collected stroke pixels.
`rows * columns` fuel provably exhausts the queue for any in-bounds seed
(see the termination theorem), which is the only exit of the C++ loop, so
this equals the unbounded loop.  (An out-of-bounds seed is undefined
behaviour in the source: `used[start.x][start.y]` is written unchecked.) -/
def BFS (start : Pixel) (img : Image) : List Pixel :=
  (bfsRun img (img.GetRows * img.GetColumns) (bfsInit start)).black_pixels

/-- `GetLeftest`: running pair (`best_pixel`, `min_x`), `min_x` starting at
`INT_MAX`. -/
def GetLeftest (pixels : List Pixel) : Pixel :=
  (pixels.foldl (fun bm p => if p.x < bm.2 then (p, p.x) else bm)
    (Pixel.default, INT_MAX)).1

/-- `GetRightest`: running pair (`best_pixel`, `max_x`), `max_x` starting at
`INT_MIN`. -/
def GetRightest (pixels : List Pixel) : Pixel :=
  (pixels.foldl (fun bm p => if bm.2 < p.x then (p, p.x) else bm)
    (Pixel.default, INT_MIN)).1

/-- `GetLowest` exactly as written: the comparison baseline `min_y` is
initialized to `INT_MIN` although the update condition is `p.y < min_y`. -/
def GetLowest (pixels : List Pixel) : Pixel :=
  (pixels.foldl (fun bm p => if p.y < bm.2 then (p, p.y) else bm)
    (Pixel.default, INT_MIN)).1

/-- `GetHighest`: running pair (`best_pixel`, `max_y`), `max_y` starting at
`INT_MIN`. -/
def GetHighest (pixels : List Pixel) : Pixel :=
  (pixels.foldl (fun bm p => if bm.2 < p.y then (p, p.y) else bm)
    (Pixel.default, INT_MIN)).1

/-- `AreSimilar(int a, int b)`: `std::abs(a - b) < 5`. -/
def AreSimilarInt (a b : Int) : Bool := decide ((a - b).natAbs < 5)

/-- `AreSimilar(Pixel a, Pixel b)`: both coordinates within the threshold. -/
def AreSimilar (a b : Pixel) : Bool :=
  AreSimilarInt a.x b.x && AreSimilarInt a.y b.y

/-- The vector `external_pixels` of `IsIntersection`. -/
def externalPixels (black_pixels : List Pixel) : List Pixel :=
  [GetLeftest black_pixels, GetRightest black_pixels,
   GetLowest black_pixels, GetHighest black_pixels]

/-- The double loop of `IsIntersection` over `i < 4`, `j` in `i+1..3`,
returning `true` as soon as some pair is similar (the source returns
`false` from the whole function at that point). -/
def similarPairFound (ext : List Pixel) : Bool :=
  (List.range 4).any (fun i =>
    ((List.range 4).drop (i + 1)).any (fun j =>
      AreSimilar (ext.getD i Pixel.default) (ext.getD j Pixel.default)))

/-- The classification part of `IsIntersection`, as a function of the
collected stroke pixels. -/
def IsIntersectionOn (black_pixels : List Pixel) : Bool :=
  !similarPairFound (externalPixels black_pixels)

/-- `IsIntersection(Pixel start, Image&)`. -/
def IsIntersection (start : Pixel) (img : Image) : Bool :=
  IsIntersectionOn (BFS start img)

/-- The inner column loop of the scanner in `main` (`STEP = 5`).
Arguments: the column extent, the current row cursor `i` (which the body
mutates via `i += 20` on a detection), the column cursor `j`, and the
candidate vector.  Returns `none` if some `IsWhite(i, j)` access is out of
bounds (undefined behaviour in the source), otherwise `some (skip, acc)`
where `skip` is the total amount added to `i` inside this row's scan. -/
def scanRow (img : Image) (cols i j : Nat) (acc : List Pixel) :
    Option (Nat × List Pixel) :=
  if h : j < cols then
    match img.IsWhiteChecked i j with
    | none => none
    | some w =>
      if w then
        if IsIntersection ⟨(i : Int), (j : Int)⟩ img then
          match scanRow img cols (i + 20) (j + 5) (acc ++ [⟨(i : Int), (j : Int)⟩]) with
          | none => none
          | some (skip, acc2) => some (skip + 20, acc2)
        else scanRow img cols i (j + 5) acc
      else scanRow img cols i (j + 5) acc
  else some (0, acc)
termination_by cols - j
decreasing_by all_goals omega

/-- The outer row loop of the scanner in `main`: after a row is scanned the
row cursor advances by the accumulated in-row skip plus `STEP = 5`. -/
def scanRows (img : Image) (i : Nat) (acc : List Pixel) : Option (List Pixel) :=
  if h : i < img.GetRows then
    match img.GetColumnsChecked with
    | none => none
    | some cols =>
      match scanRow img cols i 0 acc with
      | none => none
      | some (skip, acc2) => scanRows img (i + skip + 5) acc2
  else some acc
termination_by img.GetRows - i
decreasing_by omega

/-- The whole candidate scan of `main`: `potential_intersections`. -/
def scanCandidates (img : Image) : Option (List Pixel) := scanRows img 0 []

/-- The inner deduplication loop of `main` for a fixed `i`, iterating the
index list `L` (which the caller instantiates with `i+1 .. n-1`):
`if (AreSimilar(ps[i], ps[j])) is_bad_pixel[j] = true;`. -/
def markNear (ps : List Pixel) (i : Nat) : List Nat → List Bool → List Bool
  | [], bad => bad
  | j :: t, bad =>
      markNear ps i t
        (if AreSimilar (ps.getD i Pixel.default) (ps.getD j Pixel.default) then
          bad.set j true
        else bad)

/-- The outer deduplication loop of `main`, iterating the index list `I`
(instantiated with `0 .. n-1`). -/
def markOuter (ps : List Pixel) : List Nat → List Bool → List Bool
  | [], bad => bad
  | i :: t, bad =>
      markOuter ps t (markNear ps i ((List.range ps.length).drop (i + 1)) bad)

/-- The `is_bad_pixel` vector of `main`: for every `i`, every later `j`
similar to `i` is marked. -/
def is_bad_pixel (ps : List Pixel) : List Bool :=
  markOuter ps (List.range ps.length) (List.replicate ps.length false)

/-- The final counting loop of `main`: one per unmarked candidate. -/
def intersectionsCount (ps : List Pixel) : Nat :=
  (is_bad_pixel ps).foldl (fun c b => if !b then c + 1 else c) 0

/-- The whole pipeline of `main` after image decoding: scan, deduplicate,
count.  `none` models the undefined behaviour of an out-of-bounds access. -/
def countIntersections (g : List (List Nat)) : Option Nat :=
  (scanCandidates (Image.ofGrid g)).map intersectionsCount

/-- The set of in-bounds pixels of an image. -/
def allCells (img : Image) : Finset Pixel :=
  (Finset.range img.GetRows ×ˢ Finset.range img.GetColumns).image
    (fun ij => (⟨(ij.1 : Int), (ij.2 : Int)⟩ : Pixel))

/-- Spec-side relation: two pixels are "near" when the absolute differences
of both coordinates are simultaneously strictly below 5. -/
def Near (p q : Pixel) : Prop :=
  (p.x - q.x).natAbs < 5 ∧ (p.y - q.y).natAbs < 5

/-- A 1×2 all-background image (both intensities 0). -/
def img2 : Image := Image.ofGrid [[0, 0]]

/-- A 1×1 image whose single pixel is a stroke pixel. -/
def img1Black : Image := Image.ofGrid [[1]]

/-- A 1×1 all-background image. -/
def img1White : Image := Image.ofGrid [[0]]

/-- A 6×11 image with stroke pixels at (0,5), (4,10) and (5,0) and
background everywhere else.  Scanning it detects a junction at (0,0),
after which the 20-row skip pushes the row cursor to 20 while the column
loop keeps running: the next probe `IsWhite(20, 5)` is out of bounds. -/
def badGrid : List (List Nat) :=
  [[0, 0, 0, 0, 0, 1, 0, 0, 0, 0, 0],
   [0, 0, 0, 0, 0, 0, 0, 0, 0, 0, 0],
   [0, 0, 0, 0, 0, 0, 0, 0, 0, 0, 0],
   [0, 0, 0, 0, 0, 0, 0, 0, 0, 0, 0],
   [0, 0, 0, 0, 0, 0, 0, 0, 0, 0, 1],
   [1, 0, 0, 0, 0, 0, 0, 0, 0, 0, 0]]

def badImage : Image := Image.ofGrid badGrid

/-! ## Basic lemmas -/

/-- On a non-empty image the fallible `GetColumns` agrees with the total
shadow used inside the flood fill. -/
lemma getColumnsChecked_eq (img : Image) (h : img.GetRows ≠ 0) :
    img.GetColumnsChecked = some img.GetColumns := by
  rcases img with ⟨rows⟩
  cases rows with
  | nil => simp [Image.GetRows] at h
  | cons r t => simp [Image.GetColumnsChecked, Image.GetColumns, List.get?]

lemma areSimilar_true_iff (a b : Pixel) : AreSimilar a b = true ↔ Near a b := by
  simp [AreSimilar, AreSimilarInt, Near]

lemma areSimilar_false_iff (a b : Pixel) : AreSimilar a b = false ↔ ¬ Near a b := by
  rw [← areSimilar_true_iff]
  cases AreSimilar a b <;> simp

/-- The classifier returns `true` exactly when no two of the four extremal
pixels are near each other (all 6 unordered pairs checked). -/
lemma isIntersectionOn_iff (bp : List Pixel) :
    IsIntersectionOn bp = true ↔
      List.Pairwise (fun p q => ¬ Near p q) (externalPixels bp) := by
  rw [IsIntersectionOn, externalPixels]
  have hr : List.range 4 = [0, 1, 2, 3] := rfl
  simp only [similarPairFound, hr, List.any_cons, List.any_nil, List.drop,
    List.getD_cons_zero, List.getD_cons_succ, Bool.or_eq_true,
    Bool.not_eq_true', Bool.or_eq_false_iff, List.pairwise_cons,
    List.forall_mem_cons, List.forall_mem_nil, areSimilar_false_iff,
    List.Pairwise.nil]
  tauto

/-! ## Extremal-search lemmas -/

/-- The `GetLowest` fold never fires its update when every column
coordinate is `≥ INT_MIN` (every machine `int` is). -/
lemma foldLow_const :
    ∀ (ps : List Pixel), (∀ p ∈ ps, INT_MIN ≤ p.y) → ∀ b : Pixel,
      ps.foldl (fun bm p => if p.y < bm.2 then (p, p.y) else bm) (b, INT_MIN)
        = (b, INT_MIN) := by
  intro ps
  induction ps with
  | nil => intro _ b; rfl
  | cons p t ih =>
    intro h b
    have hp : ¬ (p.y < INT_MIN) := not_lt.mpr (h p (List.mem_cons_self p t))
    simp only [List.foldl_cons, if_neg hp]
    exact ih (fun q hq => h q (List.mem_cons_of_mem p hq)) b

/-- Same inertness for the `GetHighest` fold when no column exceeds the
starting baseline. -/
lemma foldHigh_const :
    ∀ (ps : List Pixel), (∀ p ∈ ps, p.y ≤ INT_MIN) → ∀ b : Pixel,
      ps.foldl (fun bm p => if bm.2 < p.y then (p, p.y) else bm) (b, INT_MIN)
        = (b, INT_MIN) := by
  intro ps
  induction ps with
  | nil => intro _ b; rfl
  | cons p t ih =>
    intro h b
    have hp : ¬ (INT_MIN < p.y) := not_lt.mpr (h p (List.mem_cons_self p t))
    simp only [List.foldl_cons, if_neg hp]
    exact ih (fun q hq => h q (List.mem_cons_of_mem p hq)) b

/-- What the `GetHighest` fold computes from an arbitrary starting pair. -/
lemma foldHigh_spec :
    ∀ (ps : List Pixel) (b : Pixel) (m : Int),
      m ≤ (ps.foldl (fun bm p => if bm.2 < p.y then (p, p.y) else bm) (b, m)).2 ∧
      (∀ q ∈ ps,
        q.y ≤ (ps.foldl (fun bm p => if bm.2 < p.y then (p, p.y) else bm) (b, m)).2) ∧
      (((ps.foldl (fun bm p => if bm.2 < p.y then (p, p.y) else bm) (b, m)).1 = b ∧
        (ps.foldl (fun bm p => if bm.2 < p.y then (p, p.y) else bm) (b, m)).2 = m) ∨
       ((ps.foldl (fun bm p => if bm.2 < p.y then (p, p.y) else bm) (b, m)).1 ∈ ps ∧
        (ps.foldl (fun bm p => if bm.2 < p.y then (p, p.y) else bm) (b, m)).1.y =
          (ps.foldl (fun bm p => if bm.2 < p.y then (p, p.y) else bm) (b, m)).2)) := by
  intro ps
  induction ps with
  | nil => exact fun b m => ⟨le_refl m, by simp, Or.inl ⟨rfl, rfl⟩⟩
  | cons p t ih =>
    intro b m
    by_cases hm : m < p.y
    · simp only [List.foldl_cons, if_pos hm]
      obtain ⟨h1, h2, h3⟩ := ih p p.y
      refine ⟨le_of_lt (lt_of_lt_of_le hm h1), ?_, ?_⟩
      · intro q hq
        rcases List.mem_cons.mp hq with h | h
        · subst h; exact h1
        · exact h2 q h
      · rcases h3 with ⟨e1, e2⟩ | ⟨hmem, he⟩
        · exact Or.inr ⟨by rw [e1]; exact List.mem_cons_self p t, by rw [e1, e2]⟩
        · exact Or.inr ⟨List.mem_cons_of_mem p hmem, he⟩
    · simp only [List.foldl_cons, if_neg hm]
      obtain ⟨h1, h2, h3⟩ := ih b m
      refine ⟨h1, ?_, ?_⟩
      · intro q hq
        rcases List.mem_cons.mp hq with h | h
        · subst h; exact le_trans (not_lt.mp hm) h1
        · exact h2 q h
      · rcases h3 with he | ⟨hmem, he⟩
        · exact Or.inl he
        · exact Or.inr ⟨List.mem_cons_of_mem p hmem, he⟩

/-! ## Deduplication lemmas -/

lemma mem_drop_range (m n k : Nat) : k ∈ (List.range n).drop m ↔ m ≤ k ∧ k < n := by
  rw [List.mem_iff_getElem]
  constructor
  · rintro ⟨j, hj, hk⟩
    rw [List.getElem_drop, List.getElem_range] at hk
    simp only [List.length_drop, List.length_range] at hj
    omega
  · rintro ⟨h1, h2⟩
    refine ⟨k - m, ?_, ?_⟩
    · simp only [List.length_drop, List.length_range]; omega
    · rw [List.getElem_drop, List.getElem_range]; omega

lemma getD_replicate_false (n k : Nat) :
    (List.replicate n false).getD k false = false := by
  rw [List.getD_eq_getElem?_getD]
  rcases lt_or_ge k n with h | h
  · rw [List.getElem?_eq_getElem (by simpa using h)]
    simp [List.getElem_replicate]
  · rw [List.getElem?_eq_none (by simpa using h)]
    rfl

lemma getD_set_bool (l : List Bool) (j k : Nat) (a : Bool) :
    (l.set j a).getD k false =
      if j = k ∧ j < l.length then a else l.getD k false := by
  rw [List.getD_eq_getElem?_getD, List.getElem?_set, List.getD_eq_getElem?_getD]
  rcases eq_or_ne j k with h1 | h1
  · subst h1
    by_cases h2 : j < l.length
    · simp [h2]
    · rw [List.getElem?_eq_none (by omega)]
      simp [h2]
  · simp [h1]

lemma markNear_length (ps : List Pixel) (i : Nat) (L : List Nat) (bad : List Bool) :
    (markNear ps i L bad).length = bad.length := by
  induction L generalizing bad with
  | nil => rfl
  | cons j t ih =>
    rw [markNear, ih]
    split <;> simp

lemma markOuter_length (ps : List Pixel) (I : List Nat) (bad : List Bool) :
    (markOuter ps I bad).length = bad.length := by
  induction I generalizing bad with
  | nil => rfl
  | cons i t ih => rw [markOuter, ih, markNear_length]

lemma is_bad_length (ps : List Pixel) :
    (is_bad_pixel ps).length = ps.length := by
  rw [is_bad_pixel, markOuter_length, List.length_replicate]

lemma markNear_getD (ps : List Pixel) (i : Nat) (L : List Nat) (bad : List Bool)
    (hL : ∀ j ∈ L, j < bad.length) (k : Nat) :
    ((markNear ps i L bad).getD k false = true) ↔
      (bad.getD k false = true ∨
        (k ∈ L ∧
          AreSimilar (ps.getD i Pixel.default) (ps.getD k Pixel.default) = true)) := by
  induction L generalizing bad with
  | nil => simp [markNear]
  | cons j t ih =>
    have hj : j < bad.length := hL j (List.mem_cons_self j t)
    rw [markNear]
    have hlen : (if AreSimilar (ps.getD i Pixel.default) (ps.getD j Pixel.default) then
        bad.set j true else bad).length = bad.length := by
      split <;> simp
    rw [ih _ (fun x hx => by rw [hlen]; exact hL x (List.mem_cons_of_mem j hx))]
    by_cases hc :
        AreSimilar (ps.getD i Pixel.default) (ps.getD j Pixel.default) = true
    · by_cases hkj : k = j
      · subst hkj
        rw [if_pos hc, getD_set_bool, if_pos ⟨rfl, hj⟩]
        constructor
        · intro _
          exact Or.inr ⟨List.mem_cons_self k t, hc⟩
        · intro _
          exact Or.inl rfl
      · rw [if_pos hc, getD_set_bool, if_neg (by tauto)]
        simp only [List.mem_cons]
        constructor
        · rintro (h | ⟨hm, hs⟩)
          · exact Or.inl h
          · exact Or.inr ⟨Or.inr hm, hs⟩
        · rintro (h | ⟨hm | hm, hs⟩)
          · exact Or.inl h
          · exact absurd hm hkj
          · exact Or.inr ⟨hm, hs⟩
    · rw [if_neg hc]
      simp only [List.mem_cons]
      constructor
      · rintro (h | ⟨hm, hs⟩)
        · exact Or.inl h
        · exact Or.inr ⟨Or.inr hm, hs⟩
      · rintro (h | ⟨hm | hm, hs⟩)
        · exact Or.inl h
        · rw [hm] at hs
          exact absurd hs hc
        · exact Or.inr ⟨hm, hs⟩

lemma markOuter_getD (ps : List Pixel) (I : List Nat) (bad : List Bool)
    (hlen : bad.length = ps.length) (k : Nat) :
    ((markOuter ps I bad).getD k false = true) ↔
      (bad.getD k false = true ∨
        ∃ i ∈ I, i < k ∧ k < ps.length ∧
          AreSimilar (ps.getD i Pixel.default) (ps.getD k Pixel.default) = true) := by
  induction I generalizing bad with
  | nil => simp [markOuter]
  | cons i t ih =>
    rw [markOuter]
    have hsub : ∀ j ∈ (List.range ps.length).drop (i + 1), j < bad.length := by
      intro j hj
      rw [hlen]
      exact ((mem_drop_range _ _ _).mp hj).2
    rw [ih _ (by rw [markNear_length]; exact hlen),
      markNear_getD ps i _ bad hsub k, mem_drop_range]
    constructor
    · rintro ((h | ⟨⟨h1, h2⟩, hs⟩) | ⟨x, hx, h1, h2, hs⟩)
      · exact Or.inl h
      · exact Or.inr ⟨i, List.mem_cons_self i t, by omega, h2, hs⟩
      · exact Or.inr ⟨x, List.mem_cons_of_mem i hx, h1, h2, hs⟩
    · rintro (h | ⟨x, hx, h1, h2, hs⟩)
      · exact Or.inl (Or.inl h)
      · rcases List.mem_cons.mp hx with hxi | hxt
        · subst hxi
          exact Or.inl (Or.inr ⟨⟨by omega, h2⟩, hs⟩)
        · exact Or.inr ⟨x, hxt, h1, h2, hs⟩

/-- The marked entries of `is_bad_pixel`: position `k` is marked exactly
when some earlier candidate is similar to candidate `k`. -/
lemma is_bad_getD (ps : List Pixel) (k : Nat) (hk : k < ps.length) :
    ((is_bad_pixel ps).getD k false = true) ↔
      ∃ i, i < k ∧
        AreSimilar (ps.getD i Pixel.default) (ps.getD k Pixel.default) = true := by
  rw [is_bad_pixel, markOuter_getD ps _ _ (by simp) k, getD_replicate_false]
  simp only [Bool.false_eq_true, false_or, List.mem_range]
  constructor
  · rintro ⟨i, -, h1, -, hs⟩
    exact ⟨i, h1, hs⟩
  · rintro ⟨i, h1, hs⟩
    exact ⟨i, by omega, h1, hk, hs⟩

lemma foldl_count_false (l : List Bool) :
    ∀ c : Nat, l.foldl (fun c b => if !b then c + 1 else c) c =
      c + (l.filter (fun b => !b)).length := by
  induction l with
  | nil => intro c; simp
  | cons b t ih =>
    intro c
    rw [List.foldl_cons, ih, List.filter_cons]
    cases b <;> simp <;> omega

lemma length_filter_of_map (f : Nat → Nat) (p : Nat → Bool) (l : List Nat) :
    ((l.map f).filter p).length = (l.filter (fun x => p (f x))).length := by
  rw [List.filter_map, List.length_map]
  rfl

lemma filter_false_length_by_index (l : List Bool) :
    (l.filter (fun b => !b)).length =
      ((List.range l.length).filter (fun j => !(l.getD j false))).length := by
  induction l with
  | nil => rfl
  | cons b t ih =>
    rw [List.length_cons, List.range_succ_eq_map, List.filter_cons, List.filter_cons]
    have htail :
        ((List.map Nat.succ (List.range t.length)).filter
          (fun j => !((b :: t).getD j false))).length =
        ((List.range t.length).filter (fun j => !(t.getD j false))).length := by
      rw [length_filter_of_map]
      apply congrArg List.length
      apply List.filter_congr
      intro j _
      rfl
    cases b with
    | false =>
      rw [if_pos (by simp), if_pos (by simp), List.length_cons, List.length_cons,
        ih, htail]
    | true =>
      rw [if_neg (by simp), if_neg (by simp), ih, htail]

/-- The counting loop counts exactly the candidates with no earlier similar
candidate. -/
lemma intersectionsCount_eq (ps : List Pixel) :
    intersectionsCount ps =
      ((List.range ps.length).filter (fun j =>
        !((List.range j).any (fun i =>
          AreSimilar (ps.getD i Pixel.default) (ps.getD j Pixel.default))))).length := by
  rw [intersectionsCount, foldl_count_false, Nat.zero_add,
    filter_false_length_by_index, is_bad_length]
  apply congrArg List.length
  apply List.filter_congr
  intro j hj
  rw [List.mem_range] at hj
  have h2 : ((List.range j).any (fun i =>
      AreSimilar (ps.getD i Pixel.default) (ps.getD j Pixel.default)) = true) ↔
      ∃ i, i < j ∧
        AreSimilar (ps.getD i Pixel.default) (ps.getD j Pixel.default) = true := by
    simp [List.any_eq_true, List.mem_range]
  congr 1
  rw [Bool.eq_iff_iff, is_bad_getD ps j hj, h2]

/-! ## Flood-fill invariants -/

lemma mem_allCells (img : Image) (p : Pixel) :
    p ∈ allCells img ↔
      (0 ≤ p.x ∧ p.x < (img.GetRows : Int) ∧
       0 ≤ p.y ∧ p.y < (img.GetColumns : Int)) := by
  rw [allCells]
  simp only [Finset.mem_image, Finset.mem_product, Finset.mem_range]
  constructor
  · rintro ⟨⟨a, b⟩, ⟨ha, hb⟩, rfl⟩
    dsimp only
    refine ⟨?_, ?_, ?_, ?_⟩ <;> omega
  · rintro ⟨h1, h2, h3, h4⟩
    refine ⟨(p.x.toNat, p.y.toNat), ⟨?_, ?_⟩, ?_⟩
    · omega
    · omega
    · cases p
      dsimp only at h1 h2 h3 h4 ⊢
      simp only [Pixel.mk.injEq]
      constructor <;> omega

lemma isCorrect_iff (img : Image) (x y : Int) :
    img.IsCorrect x y = true ↔
      (0 ≤ x ∧ x < (img.GetRows : Int) ∧ 0 ≤ y ∧ y < (img.GetColumns : Int)) := by
  rw [Image.IsCorrect]
  simp only [Bool.and_eq_true, decide_eq_true_eq]
  tauto

lemma mem_ite_singleton {c : Prop} [Decidable c] {r q : Pixel}
    (h : q ∈ if c then [r] else ([] : List Pixel)) : c ∧ q = r := by
  split at h
  · simp only [List.mem_singleton] at h
    exact ⟨by assumption, h⟩
  · simp at h

lemma neighbours_mem_allCells (img : Image) (p : Pixel) :
    ∀ q ∈ img.GetNeighboursP p, q ∈ allCells img := by
  intro q hq
  rw [Image.GetNeighboursP, Image.GetNeighbours] at hq
  simp only [List.mem_append] at hq
  rcases hq with ((h | h) | h) | h <;>
    · obtain ⟨hc, rfl⟩ := mem_ite_singleton h
      exact (mem_allCells img _).mpr ((isCorrect_iff img _ _).mp hc)

/-- The loop invariant of `BFS`: the queue and the popped pixels are marked
visited, the visited set only contains the seed and in-bounds pixels, no
pixel occurs twice across popped-plus-queued, the output is exactly the
stroke-class part of the popped sequence, and the two counters still hold
their initial values. -/
structure BfsInv (img : Image) (start : Pixel) (s : BfsState) : Prop where
  queue_used : ∀ p ∈ s.queue, p ∈ s.used
  trace_used : ∀ p ∈ s.trace, p ∈ s.used
  used_sub : s.used ⊆ insert start (allCells img)
  nodup : (s.trace ++ s.queue).Nodup
  black_eq : s.black_pixels = s.trace.filter (fun p => !(img.IsWhiteP p))
  white_eq : s.white = 0
  black_one : s.black = 1

/-- Loop variant: queue length plus the number of never-visited cells. -/
def bfsMeasure (img : Image) (start : Pixel) (s : BfsState) : Nat :=
  s.queue.length + ((insert start (allCells img)) \ s.used).card

lemma enqueueNew_trace (t : BfsState) (p : Pixel) :
    (enqueueNew t p).trace = t.trace := by
  rw [enqueueNew]
  split <;> rfl

lemma enqueueNew_black_pixels (t : BfsState) (p : Pixel) :
    (enqueueNew t p).black_pixels = t.black_pixels := by
  rw [enqueueNew]
  split <;> rfl

lemma enqueueNew_white (t : BfsState) (p : Pixel) :
    (enqueueNew t p).white = t.white := by
  rw [enqueueNew]
  split <;> rfl

lemma enqueueNew_black (t : BfsState) (p : Pixel) :
    (enqueueNew t p).black = t.black := by
  rw [enqueueNew]
  split <;> rfl

lemma foldl_enqueue_fields (ns : List Pixel) :
    ∀ t : BfsState,
      (ns.foldl enqueueNew t).trace = t.trace ∧
      (ns.foldl enqueueNew t).black_pixels = t.black_pixels ∧
      (ns.foldl enqueueNew t).white = t.white ∧
      (ns.foldl enqueueNew t).black = t.black := by
  induction ns with
  | nil => exact fun t => ⟨rfl, rfl, rfl, rfl⟩
  | cons p ns ih =>
    intro t
    rw [List.foldl_cons]
    obtain ⟨h1, h2, h3, h4⟩ := ih (enqueueNew t p)
    exact ⟨by rw [h1, enqueueNew_trace], by rw [h2, enqueueNew_black_pixels],
      by rw [h3, enqueueNew_white], by rw [h4, enqueueNew_black]⟩

lemma foldl_enqueue_inv (img : Image) (start : Pixel) :
    ∀ (ns : List Pixel), (∀ q ∈ ns, q ∈ allCells img) →
    ∀ (t : BfsState),
      (∀ p ∈ t.queue, p ∈ t.used) →
      (∀ p ∈ t.trace, p ∈ t.used) →
      t.used ⊆ insert start (allCells img) →
      (t.trace ++ t.queue).Nodup →
      ((∀ p ∈ (ns.foldl enqueueNew t).queue, p ∈ (ns.foldl enqueueNew t).used) ∧
       (∀ p ∈ (ns.foldl enqueueNew t).trace, p ∈ (ns.foldl enqueueNew t).used) ∧
       (ns.foldl enqueueNew t).used ⊆ insert start (allCells img) ∧
       ((ns.foldl enqueueNew t).trace ++ (ns.foldl enqueueNew t).queue).Nodup ∧
       (ns.foldl enqueueNew t).queue.length +
         ((insert start (allCells img)) \ (ns.foldl enqueueNew t).used).card =
         t.queue.length + ((insert start (allCells img)) \ t.used).card) := by
  intro ns
  induction ns with
  | nil => exact fun _ t h1 h2 h3 h4 => ⟨h1, h2, h3, h4, rfl⟩
  | cons p ns ih =>
    intro hns t h1 h2 h3 h4
    have hp : p ∈ allCells img := hns p (List.mem_cons_self p ns)
    have hns2 : ∀ q ∈ ns, q ∈ allCells img :=
      fun q hq => hns q (List.mem_cons_of_mem p hq)
    rw [List.foldl_cons]
    by_cases hmem : p ∈ t.used
    · have he : enqueueNew t p = t := by rw [enqueueNew, if_pos hmem]
      rw [he]
      exact ih hns2 t h1 h2 h3 h4
    · have he : enqueueNew t p =
          { t with queue := t.queue ++ [p], used := insert p t.used } := by
        rw [enqueueNew, if_neg hmem]
      rw [he]
      have hpnotq : p ∉ t.queue := fun hc => hmem (h1 p hc)
      have hpnott : p ∉ t.trace := fun hc => hmem (h2 p hc)
      have g1 : ∀ q ∈ t.queue ++ [p], q ∈ insert p t.used := by
        intro q hq
        rcases List.mem_append.mp hq with hq | hq
        · exact Finset.mem_insert_of_mem (h1 q hq)
        · simp only [List.mem_singleton] at hq
          subst hq
          exact Finset.mem_insert_self q t.used
      have g2 : ∀ q ∈ t.trace, q ∈ insert p t.used :=
        fun q hq => Finset.mem_insert_of_mem (h2 q hq)
      have g3 : insert p t.used ⊆ insert start (allCells img) :=
        Finset.insert_subset_iff.mpr ⟨Finset.mem_insert_of_mem hp, h3⟩
      have g4 : (t.trace ++ (t.queue ++ [p])).Nodup := by
        rw [← List.append_assoc, List.nodup_append]
        refine ⟨h4, List.nodup_singleton p, ?_⟩
        rw [List.disjoint_singleton]
        intro hc
        rcases List.mem_append.mp hc with hc | hc
        · exact hpnott hc
        · exact hpnotq hc
      obtain ⟨r1, r2, r3, r4, r5⟩ :=
        ih hns2 { t with queue := t.queue ++ [p], used := insert p t.used }
          g1 g2 g3 g4
      refine ⟨r1, r2, r3, r4, ?_⟩
      rw [r5]
      have hpU : p ∈ (insert start (allCells img)) \ t.used :=
        Finset.mem_sdiff.mpr ⟨Finset.mem_insert_of_mem hp, hmem⟩
      have hsd : (insert start (allCells img)) \ insert p t.used =
          ((insert start (allCells img)) \ t.used).erase p := by
        ext q
        simp only [Finset.mem_sdiff, Finset.mem_erase, Finset.mem_insert, not_or]
        tauto
      rw [hsd, Finset.card_erase_of_mem hpU]
      have hpos : 0 < ((insert start (allCells img)) \ t.used).card :=
        Finset.card_pos.mpr ⟨p, hpU⟩
      simp only [List.length_append, List.length_singleton]
      omega

lemma bfsStep_nil (img : Image) (s : BfsState) (h : s.queue = []) :
    bfsStep img s = s := by
  unfold bfsStep
  rw [h]

lemma bfsStep_cons (img : Image) (s : BfsState) (next : Pixel)
    (rest : List Pixel) (h : s.queue = next :: rest) :
    bfsStep img s =
      (img.GetNeighboursP next).foldl enqueueNew
        { s with queue := rest
               , trace := s.trace ++ [next]
               , black_pixels :=
                   if !img.IsWhiteP next then s.black_pixels ++ [next]
                   else s.black_pixels } := by
  unfold bfsStep
  rw [h]

lemma bfsStep_inv_measure (img : Image) (start : Pixel) (s : BfsState)
    (h : BfsInv img start s) :
    BfsInv img start (bfsStep img s) ∧
      (s.queue = [] ∨
        bfsMeasure img start (bfsStep img s) + 1 = bfsMeasure img start s) := by
  rcases hq : s.queue with _ | ⟨next, rest⟩
  · rw [bfsStep_nil img s hq]
    exact ⟨h, Or.inl rfl⟩
  · rw [bfsStep_cons img s next rest hq]
    have hnext : next ∈ s.used :=
      h.queue_used next (by rw [hq]; exact List.mem_cons_self _ _)
    have h1 : ∀ p ∈ rest, p ∈ s.used :=
      fun p hp => h.queue_used p (by rw [hq]; exact List.mem_cons_of_mem _ hp)
    have h2 : ∀ p ∈ s.trace ++ [next], p ∈ s.used := by
      intro p hp
      rcases List.mem_append.mp hp with hp | hp
      · exact h.trace_used p hp
      · simp only [List.mem_singleton] at hp
        subst hp
        exact hnext
    have h4 : ((s.trace ++ [next]) ++ rest).Nodup := by
      have hn := h.nodup
      rw [hq] at hn
      rwa [List.append_assoc, List.singleton_append]
    obtain ⟨r1, r2, r3, r4, r5⟩ :=
      foldl_enqueue_inv img start (img.GetNeighboursP next)
        (neighbours_mem_allCells img next)
        { s with queue := rest
               , trace := s.trace ++ [next]
               , black_pixels :=
                   if !img.IsWhiteP next then s.black_pixels ++ [next]
                   else s.black_pixels }
        h1 h2 h.used_sub h4
    obtain ⟨f1, f2, f3, f4⟩ :=
      foldl_enqueue_fields (img.GetNeighboursP next)
        { s with queue := rest
               , trace := s.trace ++ [next]
               , black_pixels :=
                   if !img.IsWhiteP next then s.black_pixels ++ [next]
                   else s.black_pixels }
      
    constructor
    · refine ⟨r1, r2, r3, r4, ?_, ?_, ?_⟩
      · rw [f2, f1]
        dsimp only
        rw [h.black_eq, List.filter_append]
        cases hw : img.IsWhiteP next <;> simp [List.filter, hw]
      · rw [f3]
        exact h.white_eq
      · rw [f4]
        exact h.black_one
    · refine Or.inr ?_
      rw [bfsMeasure, bfsMeasure, r5, hq]
      dsimp only
      rw [List.length_cons]
      omega

lemma bfsInit_inv (img : Image) (start : Pixel) :
    BfsInv img start (bfsInit start) := by
  refine ⟨?_, ?_, ?_, ?_, rfl, rfl, rfl⟩
  · intro p hp
    simp only [bfsInit, List.mem_singleton] at hp
    subst hp
    exact Finset.mem_singleton_self p
  · intro p hp
    simp [bfsInit] at hp
  · simp only [bfsInit]
    exact Finset.singleton_subset_iff.mpr (Finset.mem_insert_self start _)
  · simp [bfsInit]

lemma bfsRun_inv (img : Image) (start : Pixel) :
    ∀ (fuel : Nat) (s : BfsState), BfsInv img start s →
      BfsInv img start (bfsRun img fuel s) := by
  intro fuel
  induction fuel with
  | zero => exact fun s h => h
  | succ n ih =>
    intro s h
    rw [bfsRun]
    split
    · exact ih _ (bfsStep_inv_measure img start s h).1
    · exact h

lemma bfsCond_counters (s : BfsState) (hw : s.white = 0) (hb : s.black = 1) :
    bfsCond s = !s.queue.isEmpty := by
  rw [bfsCond, hw, hb]
  simp [MIN_ITERATION_COUNT, MAX_ITERATION_COUNT]

lemma bfsRun_drains (img : Image) (start : Pixel) :
    ∀ (fuel : Nat) (s : BfsState), BfsInv img start s →
      bfsMeasure img start s ≤ fuel → (bfsRun img fuel s).queue = [] := by
  intro fuel
  induction fuel with
  | zero =>
    intro s h hm
    have hlen : s.queue.length = 0 := by
      rw [bfsMeasure] at hm
      omega
    exact List.eq_nil_of_length_eq_zero hlen
  | succ n ih =>
    intro s h hm
    rw [bfsRun]
    rcases hq : s.queue with _ | ⟨next, rest⟩
    · have hcond : bfsCond s = false := by
        rw [bfsCond_counters s h.white_eq h.black_one, hq]
        rfl
      rw [if_neg (by rw [hcond]; simp)]
      exact hq
    · have hcond : bfsCond s = true := by
        rw [bfsCond_counters s h.white_eq h.black_one, hq]
        rfl
      rw [if_pos hcond]
      obtain ⟨hinv2, hm2⟩ := bfsStep_inv_measure img start s h
      rcases hm2 with he | hm2
      · rw [hq] at he
        cases he
      · exact ih _ hinv2 (by omega)

lemma card_allCells (img : Image) :
    (allCells img).card = img.GetRows * img.GetColumns := by
  rw [allCells, Finset.card_image_of_injective, Finset.card_product,
    Finset.card_range, Finset.card_range]
  intro a b hab
  simp only [Pixel.mk.injEq] at hab
  obtain ⟨h1, h2⟩ := hab
  exact Prod.ext (by exact_mod_cast h1) (by exact_mod_cast h2)

lemma bfsMeasure_init (img : Image) (start : Pixel) (h : start ∈ allCells img) :
    bfsMeasure img start (bfsInit start) = img.GetRows * img.GetColumns := by
  have h1 : insert start (allCells img) = allCells img :=
    Finset.insert_eq_self.mpr h
  have h2 : ((allCells img) \ {start}).card = (allCells img).card - 1 := by
    rw [Finset.card_sdiff (Finset.singleton_subset_iff.mpr h),
      Finset.card_singleton]
  have h3 : 1 ≤ (allCells img).card := Finset.card_pos.mpr ⟨start, h⟩
  rw [card_allCells] at h2 h3
  simp only [bfsMeasure, bfsInit, List.length_singleton, h1, h2]
  omega

/-! ## Claim theorems -/

/-- Claim C1: for every non-empty visited pixel set, `IsIntersection`
classifies the region as a junction if and only if no two of the four
extremal pixels (leftmost, rightmost, lowest, highest), over all 6
unordered pairs, are near each other, where near means both per-axis
absolute differences are strictly below 5. -/
theorem C1_isIntersection_iff_extremals_apart (img : Image) (start : Pixel)
    (h : BFS start img ≠ []) :
    IsIntersection start img = true ↔
      List.Pairwise (fun p q => ¬ Near p q) (externalPixels (BFS start img)) := by
  rw [IsIntersection]
  exact isIntersectionOn_iff (BFS start img)

theorem C1_witness :
    BFS ⟨0, 0⟩ img1Black ≠ [] ∧
      (IsIntersection ⟨0, 0⟩ img1Black = true ↔
        List.Pairwise (fun p q => ¬ Near p q)
          (externalPixels (BFS ⟨0, 0⟩ img1Black))) :=
  ⟨by decide, C1_isIntersection_iff_extremals_apart img1Black ⟨0, 0⟩ (by decide)⟩

/-- Claim C2, counterexample: on the 1×2 all-background image, the flood
fill visits the non-seed pixel (0,1), which is of the traversable (white)
class, not the stroke class — refuting "apart from the seed, every pixel it
visits and enqueues belongs to the stroke class". -/
theorem C2_counterexample :
    (⟨0, 1⟩ : Pixel) ∈
        (bfsRun img2 (img2.GetRows * img2.GetColumns) (bfsInit ⟨0, 0⟩)).trace ∧
      (⟨0, 1⟩ : Pixel) ≠ (⟨0, 0⟩ : Pixel) ∧
      img2.IsWhiteP ⟨0, 1⟩ = true := by
  decide

/-- Claim C2, amended: the flood fill enqueues every unvisited in-bounds
4-connected neighbour regardless of its class, so every pixel it visits or
marks is the seed or an in-bounds pixel; the output sequence collects
exactly the visited stroke-class pixels, in visit order. -/
theorem C2_output_exactly_visited_strokes (img : Image) (start : Pixel)
    (fuel : Nat) :
    (bfsRun img fuel (bfsInit start)).black_pixels =
      ((bfsRun img fuel (bfsInit start)).trace).filter
        (fun p => !(img.IsWhiteP p)) ∧
    (∀ p ∈ (bfsRun img fuel (bfsInit start)).trace,
      p = start ∨ p ∈ allCells img) ∧
    (∀ p ∈ (bfsRun img fuel (bfsInit start)).used,
      p = start ∨ p ∈ allCells img) := by
  have h := bfsRun_inv img start fuel (bfsInit start) (bfsInit_inv img start)
  refine ⟨h.black_eq, ?_, ?_⟩
  · intro p hp
    rcases Finset.mem_insert.mp (h.used_sub (h.trace_used p hp)) with h1 | h1
    · exact Or.inl h1
    · exact Or.inr h1
  · intro p hp
    rcases Finset.mem_insert.mp (h.used_sub hp) with h1 | h1
    · exact Or.inl h1
    · exact Or.inr h1

theorem C2_witness :
    (bfsRun img2 2 (bfsInit ⟨0, 0⟩)).black_pixels =
      ((bfsRun img2 2 (bfsInit ⟨0, 0⟩)).trace).filter
        (fun p => !(img2.IsWhiteP p)) ∧
      ((⟨0, 1⟩ : Pixel) = ⟨0, 0⟩ ∨ (⟨0, 1⟩ : Pixel) ∈ allCells img2) :=
  ⟨(C2_output_exactly_visited_strokes img2 ⟨0, 0⟩ 2).1,
   (C2_output_exactly_visited_strokes img2 ⟨0, 0⟩ 2).2.1 ⟨0, 1⟩ (by decide)⟩

/-- Claim C3: the counters `white`/`black` keep their initial values 0 and 1
in every state the flood-fill loop reaches, so the loop condition reduces to
"queue non-empty" — the 200/400 thresholds and the ratio test never cause an
exit. -/
theorem C3_early_stop_inert (img : Image) (start : Pixel) (fuel : Nat) :
    (bfsRun img fuel (bfsInit start)).white = 0 ∧
    (bfsRun img fuel (bfsInit start)).black = 1 ∧
    bfsCond (bfsRun img fuel (bfsInit start)) =
      !(bfsRun img fuel (bfsInit start)).queue.isEmpty := by
  have h := bfsRun_inv img start fuel (bfsInit start) (bfsInit_inv img start)
  exact ⟨h.white_eq, h.black_one, bfsCond_counters _ h.white_eq h.black_one⟩

/-- Claim C4, counterexample: on the singleton list whose column coordinate
is `INT_MIN`, `GetHighest` returns the default pixel (0,0), whose column
does not attain the maximum column of the list. -/
theorem C4_counterexample :
    GetHighest [(⟨0, INT_MIN⟩ : Pixel)] = Pixel.default ∧
      (GetHighest [(⟨0, INT_MIN⟩ : Pixel)]).y ≠ INT_MIN := by
  decide

/-- Claim C4, amended: `GetLowest` returns the default origin pixel for
every list of machine-representable columns (its baseline `INT_MIN` can
never be beaten), while `GetHighest` returns a pixel of the list attaining
the maximum column for every list containing some column above `INT_MIN`;
when every column equals `INT_MIN` it also degenerates to the default. -/
theorem C4_extremal_searches (ps : List Pixel) :
    ((∀ p ∈ ps, INT_MIN ≤ p.y) → GetLowest ps = Pixel.default) ∧
    ((∃ q ∈ ps, INT_MIN < q.y) →
      GetHighest ps ∈ ps ∧ ∀ q ∈ ps, q.y ≤ (GetHighest ps).y) ∧
    ((∀ q ∈ ps, q.y = INT_MIN) → GetHighest ps = Pixel.default) := by
  refine ⟨?_, ?_, ?_⟩
  · intro h
    rw [GetLowest, foldLow_const ps h]
  · rintro ⟨q, hq, hqy⟩
    obtain ⟨h1, h2, h3⟩ := foldHigh_spec ps Pixel.default INT_MIN
    have hgt : INT_MIN <
        (ps.foldl (fun bm p => if bm.2 < p.y then (p, p.y) else bm)
          (Pixel.default, INT_MIN)).2 := lt_of_lt_of_le hqy (h2 q hq)
    rcases h3 with ⟨-, he⟩ | ⟨hm, he⟩
    · rw [he] at hgt
      exact absurd hgt (lt_irrefl _)
    · constructor
      · rw [GetHighest]
        exact hm
      · intro r hr
        rw [GetHighest, he]
        exact h2 r hr
  · intro h
    rw [GetHighest, foldHigh_const ps (fun q hq => le_of_eq (h q hq))]

theorem C4_witness :
    GetLowest [(⟨7, 3⟩ : Pixel)] = Pixel.default ∧
      (GetHighest [(⟨7, 3⟩ : Pixel)] ∈ [(⟨7, 3⟩ : Pixel)] ∧
        ∀ q ∈ [(⟨7, 3⟩ : Pixel)], q.y ≤ (GetHighest [(⟨7, 3⟩ : Pixel)]).y) :=
  ⟨(C4_extremal_searches _).1 (by decide),
   (C4_extremal_searches _).2.1 ⟨⟨7, 3⟩, by decide, by decide⟩⟩

/-- Claim C5: refuted — on the 6×11 image `badImage`, the scanner detects a
junction at (0,0), skips the row cursor to 20, and the still-running column
loop then evaluates `IsWhite(20, 5)`: an out-of-bounds pixel access (the
scan aborts with `none` in this model). -/
theorem C5_scan_goes_out_of_bounds : scanCandidates badImage = none := by
  have inner : scanRow badImage 11 20 5 [(⟨0, 0⟩ : Pixel)] = none := by
    unfold scanRow
    have h3 : badImage.IsWhiteChecked 20 5 = none := by decide
    rw [h3]
    simp
  have row0 : scanRow badImage 11 0 0 [] = none := by
    unfold scanRow
    have h1 : badImage.IsWhiteChecked 0 0 = some true := by decide
    have h2 : IsIntersection ⟨0, 0⟩ badImage = true := by decide
    rw [h1]
    norm_num [h2, inner]
  unfold scanCandidates scanRows
  have hc : badImage.GetColumnsChecked = some 11 := by decide
  rw [hc]
  norm_num [row0]
  decide

/-- Claim C6: refuted in the sense the spec demands — `GetColumns` on an
image with zero rows indexes the first row of an empty vector (undefined
behaviour, `none` in this model) instead of returning 0. -/
theorem C6_columns_of_empty_grid_fails :
    (Image.ofGrid []).GetColumnsChecked = none ∧
      (Image.ofGrid []).GetColumnsChecked ≠ some 0 := by
  decide

/-- Claim C7: candidate `j` is marked suppressed exactly when some earlier
candidate `i < j` is near it (so an earlier candidate is never suppressed
because of a later one), and the printed count equals the number of
candidates with no earlier near candidate. -/
theorem C7_dedup_marks_iff (ps : List Pixel) :
    (∀ j, j < ps.length →
      (((is_bad_pixel ps).getD j false = true) ↔
        ∃ i, i < j ∧
          AreSimilar (ps.getD i Pixel.default) (ps.getD j Pixel.default) = true)) ∧
    intersectionsCount ps =
      ((List.range ps.length).filter (fun j =>
        !((List.range j).any (fun i =>
          AreSimilar (ps.getD i Pixel.default) (ps.getD j Pixel.default))))).length :=
  ⟨fun j hj => is_bad_getD ps j hj, intersectionsCount_eq ps⟩

theorem C7_witness :
    (1 : Nat) < ([(⟨0, 0⟩ : Pixel), ⟨3, 3⟩, ⟨100, 0⟩] : List Pixel).length ∧
      (((is_bad_pixel [(⟨0, 0⟩ : Pixel), ⟨3, 3⟩, ⟨100, 0⟩]).getD 1 false = true) ↔
        ∃ i, i < 1 ∧
          AreSimilar
            (([(⟨0, 0⟩ : Pixel), ⟨3, 3⟩, ⟨100, 0⟩]).getD i Pixel.default)
            (([(⟨0, 0⟩ : Pixel), ⟨3, 3⟩, ⟨100, 0⟩]).getD 1 Pixel.default) = true) :=
  ⟨by decide, (C7_dedup_marks_iff _).1 1 (by decide)⟩

/-- Claim C8: for every in-bounds seed, running the flood fill for
`rows * columns` iterations exhausts the queue (so the loop performs at most
`rows * columns` pops), and the popped-pixel sequence has no duplicates —
each pixel is processed at most once. -/
theorem C8_bfs_no_revisit_terminates (img : Image) (start : Pixel)
    (h : start ∈ allCells img) :
    (bfsRun img (img.GetRows * img.GetColumns) (bfsInit start)).queue = [] ∧
    (bfsRun img (img.GetRows * img.GetColumns) (bfsInit start)).trace.Nodup ∧
    (bfsRun img (img.GetRows * img.GetColumns) (bfsInit start)).trace.length ≤
      img.GetRows * img.GetColumns := by
  have hinv := bfsRun_inv img start (img.GetRows * img.GetColumns)
    (bfsInit start) (bfsInit_inv img start)
  have hdrain := bfsRun_drains img start (img.GetRows * img.GetColumns)
    (bfsInit start) (bfsInit_inv img start)
    (le_of_eq (bfsMeasure_init img start h))
  have hnd : (bfsRun img (img.GetRows * img.GetColumns)
      (bfsInit start)).trace.Nodup := (List.nodup_append.mp hinv.nodup).1
  refine ⟨hdrain, hnd, ?_⟩
  have hsub : (bfsRun img (img.GetRows * img.GetColumns)
      (bfsInit start)).trace.toFinset ⊆ allCells img := by
    intro p hp
    rw [List.mem_toFinset] at hp
    rcases Finset.mem_insert.mp (hinv.used_sub (hinv.trace_used p hp)) with
      h1 | h1
    · rw [h1]
      exact h
    · exact h1
  have hcard := Finset.card_le_card hsub
  rw [List.toFinset_card_of_nodup hnd, card_allCells] at hcard
  exact hcard

theorem C8_witness :
    (⟨0, 0⟩ : Pixel) ∈ allCells img1White ∧
      ((bfsRun img1White (img1White.GetRows * img1White.GetColumns)
          (bfsInit ⟨0, 0⟩)).queue = [] ∧
       (bfsRun img1White (img1White.GetRows * img1White.GetColumns)
          (bfsInit ⟨0, 0⟩)).trace.Nodup ∧
       (bfsRun img1White (img1White.GetRows * img1White.GetColumns)
          (bfsInit ⟨0, 0⟩)).trace.length ≤
         img1White.GetRows * img1White.GetColumns) :=
  ⟨by decide, C8_bfs_no_revisit_terminates img1White ⟨0, 0⟩ (by decide)⟩

/-- Claim C9: on a decoded grid of zero rows, the scan loop performs zero
iterations (no out-of-bounds access, no candidate recorded) and the
pipeline produces the count 0. -/
theorem C9_zero_size_grid_counts_zero :
    scanCandidates (Image.ofGrid []) = some [] ∧
      countIntersections [] = some 0 := by
  have h : scanCandidates (Image.ofGrid []) = some [] := by
    unfold scanCandidates
    unfold scanRows
    simp [Image.ofGrid, Image.GetRows]
  refine ⟨h, ?_⟩
  rw [countIntersections, h]
  rfl

/-- Claim C10: suppression ignores the suppressor's own suppression status:
in a chain a-near-b, b-near-c with a not near c, candidate b (itself
suppressed by a) still suppresses c, so the final count is 1. -/
theorem C10_chain_suppression (a b c : Pixel)
    (hab : AreSimilar a b = true) (hbc : AreSimilar b c = true)
    (hac : AreSimilar a c = false) :
    is_bad_pixel [a, b, c] = [false, true, true] ∧
      intersectionsCount [a, b, c] = 1 := by
  have hlen : (is_bad_pixel [a, b, c]).length = 3 := by
    rw [is_bad_length]
    rfl
  have e0 : (is_bad_pixel [a, b, c]).getD 0 false = false := by
    rw [Bool.eq_false_iff]
    intro hcon
    obtain ⟨i, hi, -⟩ := (is_bad_getD [a, b, c] 0 (by simp)).mp hcon
    omega
  have e1 : (is_bad_pixel [a, b, c]).getD 1 false = true :=
    (is_bad_getD [a, b, c] 1 (by simp)).mpr ⟨0, by omega, hab⟩
  have e2 : (is_bad_pixel [a, b, c]).getD 2 false = true :=
    (is_bad_getD [a, b, c] 2 (by simp)).mpr ⟨1, by omega, hbc⟩
  have hbad : is_bad_pixel [a, b, c] = [false, true, true] := by
    apply List.ext_getElem
    · rw [hlen]
      rfl
    · intro n h1 h2
      simp only [List.length_cons, List.length_nil] at h2
      interval_cases n
      · rw [← List.getD_eq_getElem (is_bad_pixel [a, b, c]) false h1, e0]
        rfl
      · rw [← List.getD_eq_getElem (is_bad_pixel [a, b, c]) false h1, e1]
        rfl
      · rw [← List.getD_eq_getElem (is_bad_pixel [a, b, c]) false h1, e2]
        rfl
  refine ⟨hbad, ?_⟩
  rw [intersectionsCount, hbad]
  rfl

theorem C10_witness :
    is_bad_pixel [(⟨0, 0⟩ : Pixel), ⟨4, 4⟩, ⟨8, 8⟩] = [false, true, true] ∧
      intersectionsCount [(⟨0, 0⟩ : Pixel), ⟨4, 4⟩, ⟨8, 8⟩] = 1 :=
  C10_chain_suppression ⟨0, 0⟩ ⟨4, 4⟩ ⟨8, 8⟩ (by decide) (by decide) (by decide)
